import Mathlib

namespace GeminiAntiblock

/-- A dynamic JSON value, the model of Go's `interface{}` after `json.Unmarshal`.
Objects are association lists with unique keys (Go `map[string]interface{}`);
numbers are modelled as integers (`float64` in Go; only integral values occur
in the fields the proxy inspects). -/
inductive JVal where
  | null
  | bool (b : Bool)
  | num (n : Int)
  | str (s : String)
  | arr (xs : List JVal)
  | obj (fields : List (String × JVal))

/-- Lookup in a string-keyed Go map modelled as an association list with
unique keys (`m[k]`): first binding wins. -/
def getField {α : Type} : List (String × α) → String → Option α
  | [], _ => none
  | (a, b) :: t, k => if a == k then some b else getField t k

/-- Update in a string-keyed Go map (`m[k] = v`): replace the binding when
the key is present, append it otherwise. -/
def setField {α : Type} : List (String × α) → String → α → List (String × α)
  | [], k, v => [(k, v)]
  | (a, b) :: t, k, v => if a == k then (k, v) :: t else (a, b) :: setField t k v

/-- Removal from a string-keyed Go map (`delete(m, k)`). -/
def removeField {α : Type} : List (String × α) → String → List (String × α)
  | [], _ => []
  | (a, b) :: t, k => if a == k then removeField t k else (a, b) :: removeField t k

/-! ### String helpers mirroring the Go standard library -/

/-- Go `unicode.IsSpace` restricted to the ASCII whitespace characters that
occur in this protocol (space, tab, newline, carriage return, vertical tab,
form feed). -/
def isSpaceChar (c : Char) : Bool :=
  c == ' ' || c == '\t' || c == '\n' || c == '\r' || c == '\x0b' || c == '\x0c'

/-- Go `strings.TrimSpace`. -/
def goTrimSpace (s : String) : String :=
  ⟨((s.data.dropWhile isSpaceChar).reverse.dropWhile isSpaceChar).reverse⟩

/-- Go `strings.HasSuffix`.  Byte-level suffix testing on valid UTF-8 agrees
with character-level suffix testing, so the character-list version is used. -/
def goHasSuffix (s suffix : String) : Bool :=
  suffix.data.isSuffixOf s.data

/-- Go `len` on a string: its size in UTF-8 bytes. -/
def goByteLen (s : String) : Nat :=
  s.data.foldl (fun n c => n + c.utf8Size) 0

/-- Go `strings.ContainsRune`. -/
def stringContainsChar (s : String) (c : Char) : Bool :=
  s.data.contains c

/-- The sentinel completion marker. -/
def doneToken : String := "[done]"

/-- The character-level core of Go `strings.ReplaceAll(s, "[done]", "")`:
left-to-right, non-overlapping removal of every occurrence of the marker. -/
def removeDoneChars : List Char → List Char
  | '[' :: 'd' :: 'o' :: 'n' :: 'e' :: ']' :: rest => removeDoneChars rest
  | c :: rest => c :: removeDoneChars rest
  | [] => []

/-- Go `strings.ReplaceAll(s, "[done]", "")`. -/
def removeDone (s : String) : String :=
  ⟨removeDoneChars s.data⟩

/-! ### retry.go: helpers translated from the source -/

/-- From src/streaming/retry.go (`nonRetryableStatuses`): the hard-fail
status set {400, 401, 403, 404, 429}. -/
def nonRetryableStatuses (code : Nat) : Bool :=
  code == 400 || code == 401 || code == 403 || code == 404 || code == 429

/-- From src/streaming/retry.go line 39: the sentence punctuation set
(the braces are written as escapes). -/
def punctuations : String := ".!?…\x27\x22》>。？！\x7d])()"

/-- From src/streaming/retry.go (`endsWithSentencePunctuation`): true when the
text, after trimming, is non-empty and either the untrimmed text ends with a
newline or the last character of the trimmed text is sentence punctuation. -/
def endsWithSentencePunctuation (text : String) : Bool :=
  let trimmed := goTrimSpace text
  if trimmed == "" then false
  else if goHasSuffix text "\n" then true
  else
    match trimmed.data.getLast? with
    | some last => stringContainsChar punctuations last
    | none => false

/-! ### SSE lines

The file src/streaming/sse.go is not part of the sources; the codec below is
modelled from the specification (§4.1).  A line is represented by whether it
is a `data: `-prefixed line and, if so, the result of decoding its JSON
payload into a `map[string]interface{}` (`none` for a line with no JSON
object or whose payload fails to decode as a mapping). -/

/-- An SSE line as the supervisor sees it: either a `data: ` line carrying
the decoded payload (`none` when no JSON object can be extracted), or any
other line kept verbatim. -/
inductive SSELine where
  | data (payload : Option JVal)
  | other (raw : String)

/-- Modelled from the spec: `is_data(frame)` is true iff the line begins with
`data: `. -/
def IsDataLine : SSELine → Bool
  | .data _ => true
  | .other _ => false

/-- The parsed view of a data line: text fragment and thought flag. -/
structure LineContent where
  text : String
  isThought : Bool

/-- Modelled from the spec: `parse(frame)` returns the text of
`candidates[0].content.parts[0].text` together with that part's boolean
`thought` flag (defaulting to false); on any structural deviation it returns
empty text and false. -/
def ParseLineContent (line : SSELine) : LineContent :=
  match line with
  | .data (some (.obj fs)) =>
    match getField fs "candidates" with
    | some (.arr (c :: _)) =>
      match c with
      | .obj cf =>
        match getField cf "content" with
        | some (.obj ct) =>
          match getField ct "parts" with
          | some (.arr (p :: _)) =>
            match p with
            | .obj pf =>
              match getField pf "text" with
              | some (.str t) =>
                { text := t
                  isThought := match getField pf "thought" with
                    | some (.bool b) => b
                    | _ => false }
              | _ => ⟨"", false⟩
            | _ => ⟨"", false⟩
          | _ => ⟨"", false⟩
        | _ => ⟨"", false⟩
      | _ => ⟨"", false⟩
    | _ => ⟨"", false⟩
  | _ => ⟨"", false⟩

/-- Modelled from the spec: `finish_reason(frame)` is the value of
`candidates[0].finishReason` when present in a well-formed candidates array,
otherwise the empty string. -/
def ExtractFinishReason (line : SSELine) : String :=
  match line with
  | .data (some (.obj fs)) =>
    match getField fs "candidates" with
    | some (.arr (c :: _)) =>
      match c with
      | .obj cf =>
        match getField cf "finishReason" with
        | some (.str r) => r
        | _ => ""
      | _ => ""
    | _ => ""
  | _ => ""

/-- Modelled from the spec: `is_blocked(frame)` holds when the payload carries
`promptFeedback.blockReason`, or the finish reason is one of SAFETY,
PROHIBITED_CONTENT, RECITATION. -/
def IsBlockedLine (line : SSELine) : Bool :=
  match line with
  | .data (some (.obj fs)) =>
    (match getField fs "promptFeedback" with
     | some (.obj pf) => (getField pf "blockReason").isSome
     | _ => false) ||
    (let r := ExtractFinishReason line
     r == "SAFETY" || r == "PROHIBITED_CONTENT" || r == "RECITATION")
  | _ => false

/-- From src/streaming/retry.go (`isValidResponseStructure`): non-data lines
are valid; a data line is valid iff its payload decodes as a mapping whose
`candidates` field is a non-empty array whose first element is a mapping. -/
def isValidResponseStructure (line : SSELine) : Bool :=
  match line with
  | .other _ => true
  | .data none => false
  | .data (some j) =>
    match j with
    | .obj fs =>
      match getField fs "candidates" with
      | some (.arr []) => false
      | some (.arr (c :: _)) =>
        match c with
        | .obj _ => true
        | _ => false
      | _ => false
    | _ => false

/-- Modelled from the spec: `remove_done_marker(frame, at_end)` removes the
`[done]` substring from `candidates[0].content.parts[0].text` only when
`at_end` is true and the payload is structurally well-formed; all surrounding
JSON is preserved and any other line is returned unchanged. -/
def RemoveDoneTokenFromLine (line : SSELine) (atEnd : Bool) : SSELine :=
  if !atEnd then line
  else
    match line with
    | .data (some (.obj fs)) =>
      match getField fs "candidates" with
      | some (.arr (c :: cs)) =>
        match c with
        | .obj cf =>
          match getField cf "content" with
          | some (.obj ct) =>
            match getField ct "parts" with
            | some (.arr (p :: ps)) =>
              match p with
              | .obj pf =>
                match getField pf "text" with
                | some (.str t) =>
                  .data (some (.obj (setField fs "candidates"
                    (.arr (.obj (setField cf "content"
                      (.obj (setField ct "parts"
                        (.arr (.obj (setField pf "text" (.str (removeDone t))) :: ps)))))
                      :: cs)))))
                | _ => line
              | _ => line
            | _ => line
          | _ => line
        | _ => line
      | _ => line
    | _ => line

/-- The exact form in which the supervisor forwards an upstream line: the
done marker is removed precisely when the line carries a terminal finish
reason (STOP or MAX_TOKENS). -/
def forwardForm (l : SSELine) : SSELine :=
  RemoveDoneTokenFromLine l
    (ExtractFinishReason l == "STOP" || ExtractFinishReason l == "MAX_TOKENS")

/-! ### retry.go: BuildRetryRequestBody -/

/-- The synthetic model turn carrying the accumulated text. -/
def modelTurn (accumulatedText : String) : JVal :=
  .obj [("role", .str "model"),
        ("parts", .arr [.obj [("text", .str accumulatedText)]])]

/-- The synthetic user turn asking for continuation. -/
def continueTurn : JVal :=
  .obj [("role", .str "user"),
        ("parts", .arr [.obj [("text",
          .str "Continue exactly where you left off without any preamble or repetition.")]])]

/-- True when a contents entry is a mapping whose `role` is the string
`user` (the test in BuildRetryRequestBody's scan). -/
def isUserEntry : JVal → Bool
  | .obj fs =>
    match getField fs "role" with
    | some (.str r) => r == "user"
    | _ => false
  | _ => false

/-- Index of the last entry with role `user`, the result of retry.go's scan
of `contents` from the end. -/
def lastUserIndex : List JVal → Option Nat
  | [] => none
  | c :: rest =>
    match lastUserIndex rest with
    | some j => some (j + 1)
    | none => if isUserEntry c then some 0 else none

/-- From src/streaming/retry.go (`BuildRetryRequestBody`): shallow-copy the
body, require a non-empty `contents` array, splice the two synthetic turns
immediately after the last user entry (at the end when there is none), and
fail with `none` when `contents` is missing, of the wrong type, or empty.
The source's re-validation of the final contents is kept even though it can
never fire. -/
def BuildRetryRequestBody (originalBody : List (String × JVal)) (accumulatedText : String) :
    Option (List (String × JVal)) :=
  match getField originalBody "contents" with
  | some (.arr contents) =>
    if contents.isEmpty then none
    else
      let history := [modelTurn accumulatedText, continueTurn]
      let newContents :=
        match lastUserIndex contents with
        | some i => contents.take (i + 1) ++ history ++ contents.drop (i + 1)
        | none => contents ++ history
      if newContents.isEmpty then none
      else some (setField originalBody "contents" (.arr newContents))
  | _ => none

/-! ### proxy.go: InjectSystemPrompt -/

/-- The injected instruction text (src/handlers/proxy.go). -/
def newSystemPromptText : String :=
  "IMPORTANT: At the very end of your entire response, you must write the token [done] to signal completion. This is a mandatory technical requirement."

/-- The injected part. -/
def newSystemPromptPart : JVal := .obj [("text", .str newSystemPromptText)]

/-- The camelCase system-instruction mapping stored by the merge step: the
existing camelCase mapping (empty when missing or malformed) with its parts
replaced by the snake_case parts prepended to the camelCase parts. -/
def mergeValue (body : List (String × JVal)) (snakeVal : JVal) : List (String × JVal) :=
  let camelMap : List (String × JVal) :=
    match getField body "systemInstruction" with
    | some (.obj m) => m
    | _ => []
  let camelParts : List JVal :=
    match getField camelMap "parts" with
    | some (.arr ps) => ps
    | _ => []
  let mergedParts : List JVal :=
    match snakeVal with
    | .obj sm =>
      (match getField sm "parts" with
       | some (.arr sp) => sp ++ camelParts
       | _ => camelParts)
    | _ => camelParts
  setField camelMap "parts" (.arr mergedParts)

/-- From src/handlers/proxy.go (`InjectSystemPrompt`, standardization step):
when the snake_case field exists, merge its parts (prepended) into the
camelCase field's parts and delete the snake_case field. -/
def mergePhase (body : List (String × JVal)) : List (String × JVal) :=
  match getField body "system_instruction" with
  | none => body
  | some snakeVal =>
    removeField (setField body "systemInstruction" (.obj (mergeValue body snakeVal)))
      "system_instruction"

/-- From src/handlers/proxy.go (`InjectSystemPrompt`, cases 1-3): create the
camelCase field when missing, null or of the wrong type; create its parts
when missing or not an array; otherwise append the injected part. -/
def casePhaseValue (body : List (String × JVal)) : JVal :=
  match getField body "systemInstruction" with
  | none => .obj [("parts", .arr [newSystemPromptPart])]
  | some .null => .obj [("parts", .arr [newSystemPromptPart])]
  | some (.obj instr) =>
    (match getField instr "parts" with
     | some (.arr parts) =>
       .obj (setField instr "parts" (.arr (parts ++ [newSystemPromptPart])))
     | _ => .obj (setField instr "parts" (.arr [newSystemPromptPart])))
  | some _ => .obj [("parts", .arr [newSystemPromptPart])]

/-- The case analysis stores the computed mapping under `systemInstruction`. -/
def casePhase (body : List (String × JVal)) : List (String × JVal) :=
  setField body "systemInstruction" (casePhaseValue body)

/-- From src/handlers/proxy.go (`InjectSystemPrompt`): the merge step
followed by the case analysis on `systemInstruction`. -/
def InjectSystemPrompt (body : List (String × JVal)) : List (String × JVal) :=
  casePhase (mergePhase body)

/-- The `systemInstruction` mapping of a body, when it is one. -/
def sysInstructionMap (body : List (String × JVal)) : Option (List (String × JVal)) :=
  match getField body "systemInstruction" with
  | some (.obj m) => some m
  | _ => none

/-- The parts array of a body's `systemInstruction` (empty for a missing or
malformed field), the observable the claims speak about. -/
def sysParts (body : List (String × JVal)) : List JVal :=
  match sysInstructionMap body with
  | some m =>
    (match getField m "parts" with
     | some (.arr ps) => ps
     | _ => [])
  | none => []

/-- Whether the body carries a well-formed camelCase system instruction with
an array of parts. -/
def hasValidCamelParts (body : List (String × JVal)) : Bool :=
  match getField body "systemInstruction" with
  | some (.obj m) =>
    (match getField m "parts" with
     | some (.arr _) => true
     | _ => false)
  | _ => false

/-! ### retry.go: the stream supervisor (ProcessStreamAndRetryInternally)

The supervisor consumes the SSE lines of the current attempt from a channel
fed by `SSELineIterator`; the embedding takes the lines of each attempt as a
list.  Writes to the client sink are collected as a list of output events
(writes are assumed to succeed; the Go code aborts the session on a write
error).  Sleeping for the retry delay is recorded as a count. -/

/-- The configuration fields the supervisor reads (src/config/config.go). -/
structure Config where
  maxConsecutiveRetries : Nat
  swallowThoughtsAfterRetry : Bool
  enablePunctuationHeuristic : Bool

/-- An event written to the client sink. -/
inductive OutEvent where
  | frame (line : SSELine)
  | errorEvent (payload : JVal)
  | rawErrorEvent (body : String)

/-- The per-attempt mutable state of the supervisor's inner loop. -/
structure AttemptLoopState where
  accumulatedText : String
  isOutputtingFormalText : Bool
  swallowModeActive : Bool
  written : List OutEvent
  lastFormalText : String
  lastFormalLine : Option SSELine
  lastFormalFlushed : Bool

/-- The outcome of processing a single line. -/
inductive LineStepResult where
  | proceed (st : AttemptLoopState)
  | interrupted (st : AttemptLoopState) (reason : String)
  | finished (st : AttemptLoopState)

/-- Clearing swallow mode on the first non-thought line (retry.go 256-259). -/
def clearSwallow (st : AttemptLoopState) : AttemptLoopState :=
  if st.swallowModeActive then { st with swallowModeActive := false } else st

/-- Pre-recording the attempt's last formal chunk (retry.go 262-269). -/
def preRecord (st : AttemptLoopState) (line : SSELine) (content : LineContent) :
    AttemptLoopState :=
  if content.text != "" && !content.isThought then
    { st with lastFormalText := content.text, lastFormalLine := some line,
              lastFormalFlushed := false }
  else st

/-- Forwarding an accepted line (retry.go 309-340): write the line with the
done marker removed when the finish reason is terminal, update the formal
text bookkeeping, then exit cleanly at the output cap or a terminal finish
reason. -/
def forwardLine (maxOutputChars : Nat) (st : AttemptLoopState) (line : SSELine)
    (content : LineContent) (finishReason : String) : LineStepResult :=
  let isEndOfResponse := finishReason == "STOP" || finishReason == "MAX_TOKENS"
  let processedLine := RemoveDoneTokenFromLine line isEndOfResponse
  let st1 := { st with written := st.written ++ [.frame processedLine] }
  let st2 :=
    if content.text != "" && !content.isThought then
      { st1 with isOutputtingFormalText := true,
                 accumulatedText := st1.accumulatedText ++ content.text,
                 lastFormalFlushed := true }
    else st1
  if maxOutputChars > 0 && goByteLen st2.accumulatedText ≥ maxOutputChars then .finished st2
  else if finishReason == "STOP" || finishReason == "MAX_TOKENS" then .finished st2
  else .proceed st2

/-- From src/streaming/retry.go lines 232-341: process one SSE line — thought
swallowing, pre-recording of the last formal chunk, the interruption tests in
priority order, then forwarding. -/
def stepLine (maxOutputChars : Nat) (st : AttemptLoopState) (line : SSELine) : LineStepResult :=
  let content := if IsDataLine line then ParseLineContent line else ⟨"", false⟩
  if st.swallowModeActive && content.isThought then
    if ExtractFinishReason line != "" then .interrupted st "FINISH_DURING_THOUGHT"
    else .proceed st
  else
    let st2 := preRecord (clearSwallow st) line content
    let finishReason := ExtractFinishReason line
    if finishReason != "" && content.isThought then .interrupted st2 "FINISH_DURING_THOUGHT"
    else if IsBlockedLine line then .interrupted st2 "BLOCK"
    else if finishReason == "STOP" &&
        goTrimSpace (st2.accumulatedText ++ content.text) == "" then
      .interrupted st2 "FINISH_EMPTY_RESPONSE"
    else if finishReason == "STOP" &&
        !goHasSuffix (goTrimSpace (st2.accumulatedText ++ content.text)) doneToken then
      .interrupted st2 "FINISH_INCOMPLETE"
    else if finishReason != "" && finishReason != "MAX_TOKENS" && finishReason != "STOP" then
      .interrupted st2 "FINISH_ABNORMAL"
    else forwardLine maxOutputChars st2 line content finishReason

/-- The result of one stream attempt: final loop state, interruption reason
(empty when none fired) and the clean-exit flag. -/
structure AttemptResult where
  state : AttemptLoopState
  reason : String
  clean : Bool

/-- The supervisor's inner loop over the lines of one attempt. -/
def runLines (maxOutputChars : Nat) (st : AttemptLoopState) : List SSELine → AttemptResult
  | [] => ⟨st, "", false⟩
  | l :: ls =>
    match stepLine maxOutputChars st l with
    | .proceed st' => runLines maxOutputChars st' ls
    | .interrupted st' r => ⟨st', r, false⟩
    | .finished st' => ⟨st', "", true⟩

/-- One attempt: the inner loop followed by the end-of-stream DROP
classification (retry.go lines 343-346). -/
def processAttempt (maxOutputChars : Nat) (st : AttemptLoopState) (lines : List SSELine) :
    AttemptResult :=
  let r := runLines maxOutputChars st lines
  if !r.clean && r.reason == "" then ⟨r.state, "DROP", false⟩ else r

/-- The result of the per-attempt epilogue. -/
structure EpilogueResult where
  state : AttemptLoopState
  clean : Bool
  streak : Nat

/-- From src/streaming/retry.go lines 355-391: the cross-attempt punctuation
heuristic.  On a non-clean resumed attempt the streak is incremented when the
attempt's last formal text is non-empty and ends with sentence punctuation,
and reset to zero otherwise; once the streak reaches three the attempt is declared
clean and an unflushed last formal frame is flushed. -/
def attemptEpilogue (cfg : Config) (retryCount streak : Nat) (st : AttemptLoopState)
    (clean : Bool) : EpilogueResult :=
  if cfg.enablePunctuationHeuristic && !clean && retryCount > 0 then
    let streak' :=
      if st.lastFormalText != "" && endsWithSentencePunctuation st.lastFormalText then
        streak + 1
      else 0
    if streak' ≥ 3 then
      let st' :=
        if !st.lastFormalFlushed then
          match st.lastFormalLine with
          | some l =>
            let isEnd := ExtractFinishReason l
            let shouldRemove := isEnd == "STOP" || isEnd == "MAX_TOKENS"
            { st with written := st.written ++ [.frame (RemoveDoneTokenFromLine l shouldRemove)],
                      accumulatedText := st.accumulatedText ++ st.lastFormalText,
                      isOutputtingFormalText := true }
          | none => st
        else st
      ⟨st', true, streak'⟩
    else ⟨st, clean, streak'⟩
  else ⟨st, clean, streak⟩

/-- The session-level state carried across attempts. -/
structure SessionSt where
  accumulatedText : String
  retryCount : Nat
  outputtingFormal : Bool
  swallowMode : Bool
  streak : Nat

/-- The fate of one continuation request, the supervisor's external input:
a 200 answer carrying a new SSE stream, a non-200 status with an error body,
or a network error. -/
inductive ContinuationOutcome where
  | ok (lines : List SSELine)
  | httpStatus (code : Nat) (body : String)
  | networkError

/-- The outcome of one iteration of the supervisor's outer loop. -/
inductive StepRes where
  | success (written : List OutEvent) (s : SessionSt)
  | failure (written : List OutEvent) (s : SessionSt) (code : Nat) (status : String) (msg : String)
  | next (written : List OutEvent) (sleeps : Nat) (s : SessionSt) (lines : List SSELine)
  | starve (written : List OutEvent) (s : SessionSt)

/-- The retry-limit error message (retry.go line 421). -/
def deadlineMessage (maxRetries : Nat) (reason : String) : String :=
  "Retry limit (" ++ toString maxRetries ++ ") exceeded after stream interruption. Last reason: " ++
    reason ++ "."

/-- The retry-limit SSE error payload (retry.go lines 417-429). -/
def deadlinePayload (maxRetries : Nat) (reason : String) (accChars : Nat) : JVal :=
  .obj [("error", .obj
    [("code", .num 504),
     ("status", .str "DEADLINE_EXCEEDED"),
     ("message", .str (deadlineMessage maxRetries reason)),
     ("details", .arr [.obj
       [("@type", .str "proxy.debug"),
        ("accumulated_text_chars", .num (Int.ofNat accChars))]])])]

/-- The error payload written when building the retry body fails
(retry.go lines 450-456). -/
def invalidRetryPayload : JVal :=
  .obj [("error", .obj
    [("code", .num 400),
     ("status", .str "INVALID_ARGUMENT"),
     ("message", .str "Failed to build retry request")])]

/-- The attempt-local state at the start of an attempt. -/
def attemptInit (s : SessionSt) : AttemptLoopState :=
  { accumulatedText := s.accumulatedText
    isOutputtingFormalText := s.outputtingFormal
    swallowModeActive := s.swallowMode
    written := []
    lastFormalText := ""
    lastFormalLine := none
    lastFormalFlushed := false }

/-- Swallow-mode activation at an interruption (retry.go lines 407-410). -/
def swallowAdjusted (cfg : Config) (s : SessionSt) : SessionSt :=
  if cfg.swallowThoughtsAfterRetry && s.outputtingFormal then
    { s with swallowMode := true }
  else s

/-- From src/streaming/retry.go lines 403-543: the retry gate.  Activate
swallow mode, fail with the 504 event at the retry budget, increment the
retry count, build the continuation body, then dispatch on the continuation
outcome: a new stream on 200; a terminal error event on a hard-fail
status; otherwise sleep the retry delay and loop with the exhausted reader. -/
def gateAndContinue (cfg : Config) (origBody : List (String × JVal)) (s : SessionSt)
    (written : List OutEvent) (reason : String) (o : Option ContinuationOutcome) : StepRes :=
  let s1 := swallowAdjusted cfg s
  if s1.retryCount ≥ cfg.maxConsecutiveRetries then
    .failure
      (written ++ [.errorEvent (deadlinePayload cfg.maxConsecutiveRetries reason
        (goByteLen s1.accumulatedText))])
      s1 504 "DEADLINE_EXCEEDED" (deadlineMessage cfg.maxConsecutiveRetries reason)
  else
    let s2 := { s1 with retryCount := s1.retryCount + 1 }
    match BuildRetryRequestBody origBody s2.accumulatedText with
    | none =>
      .failure (written ++ [.errorEvent invalidRetryPayload]) s2 400 "INVALID_ARGUMENT"
        "Failed to build retry request"
    | some _ =>
      match o with
      | none => .starve written s2
      | some (.ok newLines) => .next written 0 s2 newLines
      | some (.httpStatus code body) =>
        if nonRetryableStatuses code then
          .failure (written ++ [.rawErrorEvent body]) s2 code "" body
        else if code != 200 then .next written 1 s2 []
        else .next written 0 s2 []
      | some .networkError => .next written 1 s2 []

/-- One iteration of the supervisor's outer loop: an attempt over the current
lines, the punctuation epilogue, then either success or the retry gate. -/
def sessionStep (cfg : Config) (origBody : List (String × JVal)) (maxOutputChars : Nat)
    (s : SessionSt) (lines : List SSELine) (o : Option ContinuationOutcome) : StepRes :=
  let ar := processAttempt maxOutputChars (attemptInit s) lines
  let er := attemptEpilogue cfg s.retryCount s.streak ar.state ar.clean
  let s' : SessionSt :=
    { accumulatedText := er.state.accumulatedText
      retryCount := s.retryCount
      outputtingFormal := er.state.isOutputtingFormalText
      swallowMode := er.state.swallowModeActive
      streak := er.streak }
  if er.clean then .success er.state.written s'
  else gateAndContinue cfg origBody s' er.state.written ar.reason o

/-- The overall result of a session. -/
inductive SessionResult where
  | success (written : List OutEvent) (s : SessionSt)
  | failure (written : List OutEvent) (s : SessionSt) (code : Nat) (status : String) (msg : String)
  | outOfInput (written : List OutEvent) (s : SessionSt)

/-- The supervisor's outer loop, driven by the list of continuation
outcomes. -/
def runSession (cfg : Config) (origBody : List (String × JVal)) (maxOutputChars : Nat)
    (s : SessionSt) (lines : List SSELine) :
    List ContinuationOutcome → List OutEvent → SessionResult
  | [], written =>
    (match sessionStep cfg origBody maxOutputChars s lines none with
     | .success w s' => .success (written ++ w) s'
     | .failure w s' c status m => .failure (written ++ w) s' c status m
     | .starve w s' => .outOfInput (written ++ w) s'
     | .next w _ s' _ => .outOfInput (written ++ w) s')
  | o :: rest, written =>
    (match sessionStep cfg origBody maxOutputChars s lines (some o) with
     | .success w s' => .success (written ++ w) s'
     | .failure w s' c status m => .failure (written ++ w) s' c status m
     | .starve w s' => .outOfInput (written ++ w) s'
     | .next w _ s' ls => runSession cfg origBody maxOutputChars s' ls rest (written ++ w))

/-- The session-start state. -/
def initialSession : SessionSt :=
  { accumulatedText := "", retryCount := 0, outputtingFormal := false,
    swallowMode := false, streak := 0 }

/-- From src/streaming/retry.go lines 190-213: read the output character cap
from `generationConfig.maxOutputTokens` (falling back to 65535) and run the
supervisor from the initial state. -/
def ProcessStreamAndRetryInternally (cfg : Config) (origBody : List (String × JVal))
    (initialLines : List SSELine) (outcomes : List ContinuationOutcome) : SessionResult :=
  let maxOutputChars : Nat :=
    match getField origBody "generationConfig" with
    | some (.obj gc) =>
      (match getField gc "maxOutputTokens" with
       | some (.num n) => if n > 0 then n.toNat else 65535
       | _ => 65535)
    | _ => 65535
  runSession cfg origBody maxOutputChars initialSession initialLines outcomes []

/-- The interruption reason of a line step, `none` when the line was accepted. -/
def stepReason : LineStepResult → Option String
  | .interrupted _ r => some r
  | _ => none

/-- The attempt-local state carried by a line-step result. -/
def stepState : LineStepResult → AttemptLoopState
  | .proceed st => st
  | .interrupted st _ => st
  | .finished st => st

/-- The session state carried by a step result. -/
def stepSession : StepRes → SessionSt
  | .success _ s => s
  | .failure _ s _ _ _ => s
  | .next _ _ s _ => s
  | .starve _ s => s

/-- The events written during one step. -/
def stepWritten : StepRes → List OutEvent
  | .success w _ => w
  | .failure w _ _ _ _ => w
  | .next w _ _ _ => w
  | .starve w _ => w

/-! ### The per-key sliding-window rate limiter (src/unnamed/part_000)

Instants are modelled as integers; the mutex is irrelevant for the
sequential analysis the claim asks for.  The successive wake-up times of one
`Wait` call's loop are supplied as a list. -/

/-- The rate limiter: per-key timestamp lists, the admission limit and the
window length. -/
structure RateLimiter where
  clients : List (String × List Int)
  limit : Nat
  window : Int

/-- Go map read `l.clients[apiKey]` (a missing key reads as the empty
slice). -/
def getTimestamps (rl : RateLimiter) (key : String) : List Int :=
  match getField rl.clients key with
  | some ts => ts
  | none => []

/-- The cleanup loop of `Wait`: find the first index whose timestamp is not
before the cutoff (the length when every timestamp is stale) and drop the
prefix before it. -/
def pruneStale (cutoff : Int) (ts : List Int) : List Int :=
  ts.drop (ts.findIdx (fun t => !(t < cutoff)))

/-- The result of one iteration of `Wait`'s loop. -/
inductive WaitStepRes where
  | admitted (rl : RateLimiter)
  | mustWait (waitUntil : Int)

/-- One iteration of `RateLimiter.Wait`'s loop at instant `now`: discard
timestamps older than the window, admit and record `now` when fewer than
`limit` remain, otherwise report the instant until which the caller sleeps
(the oldest retained timestamp plus the window). -/
def waitStep (rl : RateLimiter) (key : String) (now : Int) : WaitStepRes :=
  let cutoff := now - rl.window
  let ts := pruneStale cutoff (getTimestamps rl key)
  if ts.length < rl.limit then
    .admitted { rl with clients := setField rl.clients key (ts ++ [now]) }
  else
    match ts with
    | t :: _ => .mustWait (t + rl.window)
    | [] => .mustWait now

/-- `RateLimiter.Wait`: iterate the loop at the given successive instants
until admission; `none` when the instants run out first. -/
def Wait (rl : RateLimiter) (key : String) : List Int → Option RateLimiter
  | [] => none
  | now :: later =>
    match waitStep rl key now with
    | .admitted rl' => some rl'
    | .mustWait _ => Wait rl key later

/-! ### Concrete inputs used by the witnesses and counterexamples -/

/-- A data frame whose single candidate carries only a text part. -/
def textFrame (t : String) : SSELine :=
  .data (some (.obj [("candidates", .arr [.obj
    [("content", .obj [("parts", .arr [.obj [("text", .str t)]])])]])]))

/-- A data frame carrying text and `finishReason: STOP`. -/
def stopFrame (t : String) : SSELine :=
  .data (some (.obj [("candidates", .arr [.obj
    [("content", .obj [("parts", .arr [.obj [("text", .str t)]])]),
     ("finishReason", .str "STOP")]])]))

/-- A thought frame (the part flagged `thought: true`). -/
def thoughtFrame (t : String) : SSELine :=
  .data (some (.obj [("candidates", .arr [.obj
    [("content", .obj [("parts", .arr [.obj
      [("text", .str t), ("thought", .bool true)]])])]])]))

/-- A thought frame that also carries a finish reason. -/
def thoughtStopFrame (t : String) : SSELine :=
  .data (some (.obj [("candidates", .arr [.obj
    [("content", .obj [("parts", .arr [.obj
      [("text", .str t), ("thought", .bool true)]])]),
     ("finishReason", .str "STOP")]])]))

/-- The structurally invalid data line of claim C1: its payload decodes but
has no `candidates` field. -/
def invalidLine : SSELine := .data (some (.obj [("foo", .num 1)]))

/-- A mid-stream frame carrying a stray `[done]` and no finish reason. -/
def midDoneLine : SSELine := textFrame "mid[done]stream"

/-- A user turn, as found in a request's `contents`. -/
def userEntry : JVal :=
  .obj [("role", .str "user"), ("parts", .arr [.obj [("text", .str "hi")]])]

/-- A model turn, as found in a request's `contents`. -/
def modelEntry : JVal :=
  .obj [("role", .str "model"), ("parts", .arr [.obj [("text", .str "hello")]])]

/-- A minimal valid request body. -/
def body0 : List (String × JVal) := [("contents", .arr [userEntry])]

/-- The default configuration (src/config/config.go defaults). -/
def cfg0 : Config :=
  { maxConsecutiveRetries := 100, swallowThoughtsAfterRetry := true,
    enablePunctuationHeuristic := true }

/-- A configuration with a small retry budget, used by witnesses. -/
def cfg2 : Config :=
  { maxConsecutiveRetries := 2, swallowThoughtsAfterRetry := true,
    enablePunctuationHeuristic := true }

/-- The parts carried by a snake_case `system_instruction` value (empty when
the value is not a mapping with an array of parts), as the merge step of
InjectSystemPrompt reads them. -/
def snakePartsOf : JVal → List JVal
  | .obj sm =>
    (match getField sm "parts" with
     | some (.arr sp) => sp
     | _ => [])
  | _ => []

/-- The punctuation-heuristic increment condition, phrased as the claims
state it: the last formal text is non-empty after trimming, and either the
text itself ends with a newline character or its trailing non-whitespace
character is sentence punctuation. -/
def punctCond (t : String) : Bool :=
  !(goTrimSpace t == "") &&
    (goHasSuffix t "\n" ||
      (match (goTrimSpace t).data.getLast? with
       | some c => stringContainsChar punctuations c
       | none => false))

/-- An attempt-local state in swallow mode, used by the C4 counterexample. -/
def swallowState : AttemptLoopState :=
  { attemptInit initialSession with swallowModeActive := true }

/-- An attempt-local state whose last formal text ends with a newline (but
not with sentence punctuation), used by the C8 counterexample. -/
def stHi : AttemptLoopState :=
  { attemptInit initialSession with
      lastFormalText := "Hi\n", lastFormalLine := some (textFrame "Hi\n") }

/-! ## Association-list lemmas -/

theorem getField_setField_self {α : Type} :
    ∀ (fs : List (String × α)) (k : String) (v : α),
    getField (setField fs k v) k = some v
  | [], k, v => by simp [getField, setField]
  | (a, b) :: t, k, v => by
    by_cases h : a == k
    · simp [setField, h, getField]
    · simp [setField, h, getField, getField_setField_self t k v]

theorem getField_setField_ne {α : Type} (k k' : String) (h : k' ≠ k) :
    ∀ (fs : List (String × α)) (v : α),
    getField (setField fs k v) k' = getField fs k'
  | [], v => by
    have hkk : (k == k') = false := beq_eq_false_iff_ne.mpr (fun hk => h hk.symm)
    simp [getField, setField, hkk]
  | (a, b) :: t, v => by
    have hkk : (k == k') = false := beq_eq_false_iff_ne.mpr (fun hk => h hk.symm)
    by_cases ha : a == k
    · have ha' : a = k := by simpa using ha
      have hb : (a == k') = false := by rw [ha']; exact hkk
      simp [setField, ha, getField, hb, hkk]
    · by_cases hb : a == k'
      · simp [setField, ha, getField, hb]
      · simp [setField, ha, getField, hb, getField_setField_ne k k' h t v]

theorem getField_removeField_self {α : Type} (k : String) :
    ∀ (fs : List (String × α)), getField (removeField fs k) k = none
  | [] => by simp [getField, removeField]
  | (a, b) :: t => by
    by_cases h : a == k
    · simp [removeField, h, getField_removeField_self k t]
    · have hf : (a == k) = false := by simpa using h
      simp [removeField, hf, getField, getField_removeField_self k t]

theorem getField_removeField_ne {α : Type} (k k' : String) (h : k' ≠ k) :
    ∀ (fs : List (String × α)),
    getField (removeField fs k) k' = getField fs k'
  | [] => by simp [getField, removeField]
  | (a, b) :: t => by
    by_cases ha : a == k
    · have ha' : a = k := by simpa using ha
      have hb : (a == k') = false := by
        rw [ha']
        exact beq_eq_false_iff_ne.mpr (fun hk => h hk.symm)
      simp [removeField, ha, getField, hb, getField_removeField_ne k k' h t]
    · by_cases hb : a == k'
      · simp [removeField, ha, getField, hb]
      · simp [removeField, ha, getField, hb, getField_removeField_ne k k' h t]

theorem clearSwallow_fields (st : AttemptLoopState) :
    (clearSwallow st).accumulatedText = st.accumulatedText ∧
    (clearSwallow st).written = st.written ∧
    (clearSwallow st).lastFormalLine = st.lastFormalLine := by
  unfold clearSwallow
  split <;> exact ⟨rfl, rfl, rfl⟩

theorem preRecord_fields (st : AttemptLoopState) (line : SSELine) (content : LineContent) :
    (preRecord st line content).accumulatedText = st.accumulatedText ∧
    (preRecord st line content).written = st.written ∧
    ((preRecord st line content).lastFormalLine = st.lastFormalLine ∨
      (preRecord st line content).lastFormalLine = some line) := by
  unfold preRecord
  split
  · exact ⟨rfl, rfl, Or.inr rfl⟩
  · exact ⟨rfl, rfl, Or.inl rfl⟩

theorem forwardLine_state (maxOut : Nat) (st : AttemptLoopState) (line : SSELine)
    (content : LineContent) (finishReason : String) :
    (stepState (forwardLine maxOut st line content finishReason)).written
        = st.written ++ [.frame (RemoveDoneTokenFromLine line
            (finishReason == "STOP" || finishReason == "MAX_TOKENS"))] ∧
    (stepState (forwardLine maxOut st line content finishReason)).lastFormalLine
        = st.lastFormalLine := by
  simp only [forwardLine]
  repeat' split
  all_goals exact ⟨rfl, rfl⟩

/-! ## Claim theorems -/

/-- C1: the claim says a data line whose payload is not a valid structure is
classified as an interruption with reason INVALID_CANDIDATES and is not
forwarded.  The code defines `isValidResponseStructure` but never consults
it in the supervisor loop: on the failing input — an attempt consisting of
the single data line with payload `{"foo": 1}`, which the validator rejects —
the line is forwarded to the client and the attempt ends classified as DROP,
never as INVALID_CANDIDATES. -/
theorem c1_invalid_candidates_unwired :
    isValidResponseStructure invalidLine = false ∧
    (processAttempt 65535 (attemptInit initialSession) [invalidLine]).state.written
      = [.frame invalidLine] ∧
    (processAttempt 65535 (attemptInit initialSession) [invalidLine]).reason = "DROP" :=
  ⟨rfl, rfl, rfl⟩

/-- C3 counterexample: a mid-stream data frame with candidate text
`mid[done]stream` and no finish reason is forwarded to the client verbatim,
so a frame written to the sink does carry the substring `[done]`. -/
theorem c3_counterexample :
    (processAttempt 65535 (attemptInit initialSession) [midDoneLine]).state.written
      = [.frame midDoneLine] ∧
    (ParseLineContent midDoneLine).text = "mid" ++ doneToken ++ "stream" :=
  ⟨rfl, rfl⟩

/-- C4 counterexample: with swallow mode active, a non-data line (here the
line `event: ping`) clears swallow mode, although the claim says swallow
mode is cleared exactly on the first non-thought data frame. -/
theorem c4_counterexample :
    IsDataLine (SSELine.other "event: ping") = false ∧
    swallowState.swallowModeActive = true ∧
    (stepState (stepLine 65535 swallowState (SSELine.other "event: ping"))).swallowModeActive
      = false :=
  ⟨rfl, rfl, rfl⟩

/-- C8 counterexample: an attempt whose last formal text is `Hi\n` — whose
trailing non-whitespace character `i` is not sentence punctuation, and whose
recorded raw data line does not end with a newline — still increments the
resume punctuation streak, because the code tests the text fragment (not the
raw line) for a trailing newline. -/
theorem c8_counterexample :
    (goTrimSpace stHi.lastFormalText).data.getLast? = some 'i' ∧
    stringContainsChar punctuations 'i' = false ∧
    (attemptEpilogue cfg0 1 0 stHi false).streak = 1 :=
  ⟨rfl, rfl, rfl⟩

theorem lastUserIndex_none_spec : ∀ (cs : List JVal), lastUserIndex cs = none →
    ∀ j (hj : j < cs.length), isUserEntry (cs.get ⟨j, hj⟩) = false
  | [], _, j, hj => absurd hj (by simp)
  | c :: rest, h, j, hj => by
    have hrest : lastUserIndex rest = none := by
      unfold lastUserIndex at h
      rcases hr : lastUserIndex rest with _ | jj
      · rfl
      · rw [hr] at h
        simp at h
    have hc : isUserEntry c = false := by
      unfold lastUserIndex at h
      rw [hrest] at h
      by_cases hu : isUserEntry c
      · simp [hu] at h
      · simpa using hu
    cases j with
    | zero => simpa using hc
    | succ jj =>
      simpa using lastUserIndex_none_spec rest hrest jj (by simpa using hj)

theorem lastUserIndex_some_spec : ∀ (cs : List JVal) (i : Nat), lastUserIndex cs = some i →
    ∃ h : i < cs.length, isUserEntry (cs.get ⟨i, h⟩) = true ∧
      ∀ j (hj : j < cs.length), i < j → isUserEntry (cs.get ⟨j, hj⟩) = false
  | [], i, h => by simp [lastUserIndex] at h
  | c :: rest, i, h => by
    unfold lastUserIndex at h
    rcases hr : lastUserIndex rest with _ | jj
    · rw [hr] at h
      by_cases hu : isUserEntry c
      · simp [hu] at h
        obtain rfl : i = 0 := by omega
        refine ⟨by simp, by simpa using hu, ?_⟩
        intro j hj hij
        cases j with
        | zero => exact absurd hij (by omega)
        | succ jj =>
          simpa using lastUserIndex_none_spec rest hr jj (by simpa using hj)
      · simp [hu] at h
    · rw [hr] at h
      simp at h
      obtain rfl : i = jj + 1 := by omega
      obtain ⟨hlt, huser, hmax⟩ := lastUserIndex_some_spec rest jj hr
      refine ⟨by simpa using Nat.succ_lt_succ hlt, by simpa using huser, ?_⟩
      intro j hj hij
      cases j with
      | zero => exact absurd hij (by omega)
      | succ jjj =>
        simpa using hmax jjj (by simpa using hj) (Nat.lt_of_succ_lt_succ hij)

/-- C7: for a body whose `contents` is a non-empty array,
BuildRetryRequestBody inserts exactly the synthetic model turn (carrying the
accumulated text) and continuation user turn immediately after the last
entry of role `user` — at the end when there is none — preserves every other
top-level field, and fails without a body when `contents` is missing, of the
wrong type, or empty. -/
theorem c7_build_retry_body : ∀ (body : List (String × JVal)) (acc : String),
    (∀ cs, getField body "contents" = some (.arr cs) → cs ≠ [] →
      ∃ r, BuildRetryRequestBody body acc = some r ∧
        (∀ k, k ≠ "contents" → getField r k = getField body k) ∧
        (∀ i, lastUserIndex cs = some i →
          getField r "contents"
            = some (.arr (cs.take (i + 1) ++ [modelTurn acc, continueTurn] ++ cs.drop (i + 1)))) ∧
        (lastUserIndex cs = none →
          getField r "contents" = some (.arr (cs ++ [modelTurn acc, continueTurn])))) ∧
    (∀ cs i, lastUserIndex cs = some i →
      ∃ h : i < cs.length, isUserEntry (cs.get ⟨i, h⟩) = true ∧
        ∀ j (hj : j < cs.length), i < j → isUserEntry (cs.get ⟨j, hj⟩) = false) ∧
    (getField body "contents" = some (.arr []) → BuildRetryRequestBody body acc = none) ∧
    (getField body "contents" = none → BuildRetryRequestBody body acc = none) ∧
    (∀ v, getField body "contents" = some v → (∀ cs, v ≠ .arr cs) →
      BuildRetryRequestBody body acc = none) := by
  intro body acc
  refine ⟨?_, fun cs i h => lastUserIndex_some_spec cs i h, ?_, ?_, ?_⟩
  · intro cs hc hne
    rcases hi : lastUserIndex cs with _ | i
    · refine ⟨setField body "contents" (.arr (cs ++ [modelTurn acc, continueTurn])), ?_, ?_, ?_, ?_⟩
      · simp only [BuildRetryRequestBody, hc, hi]
        simp [hne]
      · intro k hk
        exact getField_setField_ne "contents" k hk body _
      · intro i hi'
        simp at hi'
      · intro _
        exact getField_setField_self body "contents" _
    · refine ⟨setField body "contents"
        (.arr (cs.take (i + 1) ++ [modelTurn acc, continueTurn] ++ cs.drop (i + 1))), ?_, ?_, ?_, ?_⟩
      · simp only [BuildRetryRequestBody, hc, hi]
        simp [hne]
      · intro k hk
        exact getField_setField_ne "contents" k hk body _
      · intro i' hi'
        obtain rfl : i = i' := by simpa using hi'
        exact getField_setField_self body "contents" _
      · intro hnone
        simp at hnone
  · intro hc
    simp [BuildRetryRequestBody, hc]
  · intro hc
    simp [BuildRetryRequestBody, hc]
  · intro v hv hnotarr
    rcases v with _ | b | n | s | xs | fs
    · simp [BuildRetryRequestBody, hv]
    · simp [BuildRetryRequestBody, hv]
    · simp [BuildRetryRequestBody, hv]
    · simp [BuildRetryRequestBody, hv]
    · exact absurd rfl (hnotarr xs)
    · simp [BuildRetryRequestBody, hv]

/-- C7 witness: a concrete body with a single user turn. -/
theorem c7_build_retry_body_witness :
    ∃ r, BuildRetryRequestBody body0 "go" = some r ∧
      getField r "contents" = some (.arr [userEntry, modelTurn "go", continueTurn]) := by
  obtain ⟨r, h1, _, h3, _⟩ :=
    (c7_build_retry_body body0 "go").1 [userEntry] rfl (by simp)
  exact ⟨r, h1, by simpa using h3 0 rfl⟩

theorem casePhase_other_key (b : List (String × JVal)) (k : String)
    (h : k ≠ "systemInstruction") :
    getField (casePhase b) k = getField b k :=
  getField_setField_ne _ k h b _

theorem sysParts_of_obj (b : List (String × JVal)) (instr : List (String × JVal))
    (hsi : getField b "systemInstruction" = some (.obj instr)) :
    sysParts b
      = (match getField instr "parts" with
         | some (.arr ps) => ps
         | _ => []) := by
  simp [sysParts, sysInstructionMap, hsi]

theorem casePhaseValue_parts (b : List (String × JVal)) :
    ∃ m, casePhaseValue b = .obj m ∧
      getField m "parts" = some (.arr (sysParts b ++ [newSystemPromptPart])) := by
  unfold casePhaseValue
  split
  · next hsi => exact ⟨_, rfl, by simp [getField, sysParts, sysInstructionMap, hsi]⟩
  · next hsi => exact ⟨_, rfl, by simp [getField, sysParts, sysInstructionMap, hsi]⟩
  · next instr hsi =>
    split
    · next parts hp =>
      refine ⟨_, rfl, ?_⟩
      rw [getField_setField_self instr "parts" _, sysParts_of_obj b instr hsi, hp]
    · next hp =>
      refine ⟨_, rfl, ?_⟩
      rw [getField_setField_self instr "parts" _, sysParts_of_obj b instr hsi]
      rcases hpv : getField instr "parts" with _ | pv
      · simp
      · rcases pv with _ | _ | _ | _ | ps | _
        · simp
        · simp
        · simp
        · simp
        · exact absurd hpv (by simpa using hp ps)
        · simp
  · next v h1 h2 h3 =>
    refine ⟨_, rfl, ?_⟩
    have hnone : sysInstructionMap b = none := by
      unfold sysInstructionMap
      rw [h3]
      rcases v with _ | _ | _ | _ | _ | m
      · exact absurd rfl h1
      · rfl
      · rfl
      · rfl
      · rfl
      · exact absurd rfl (h2 m)
    simp [getField, sysParts, hnone]

theorem casePhase_parts (b : List (String × JVal)) :
    ∃ m, getField (casePhase b) "systemInstruction" = some (.obj m) ∧
      getField m "parts" = some (.arr (sysParts b ++ [newSystemPromptPart])) := by
  obtain ⟨m, h1, h2⟩ := casePhaseValue_parts b
  exact ⟨m, by rw [casePhase, getField_setField_self, h1], h2⟩

theorem casePhase_sysParts (b : List (String × JVal)) :
    sysParts (casePhase b) = sysParts b ++ [newSystemPromptPart] := by
  obtain ⟨m, h1, h2⟩ := casePhase_parts b
  simp [sysParts, sysInstructionMap, h1, h2]

theorem mergePhase_none (b : List (String × JVal))
    (h : getField b "system_instruction" = none) : mergePhase b = b := by
  simp [mergePhase, h]

theorem mergePhase_snake_gone (b : List (String × JVal)) :
    getField (mergePhase b) "system_instruction" = none := by
  unfold mergePhase
  split
  · next hs => exact hs
  · next sv hs => exact getField_removeField_self _ _

theorem mergeValue_parts (b : List (String × JVal)) (sv : JVal) :
    getField (mergeValue b sv) "parts" = some (.arr (snakePartsOf sv ++ sysParts b)) := by
  unfold mergeValue
  rw [getField_setField_self]
  have hcamel :
      (match getField
          (match getField b "systemInstruction" with
            | some (.obj m) => m
            | _ => ([] : List (String × JVal))) "parts" with
        | some (.arr ps) => ps
        | _ => ([] : List JVal)) = sysParts b := by
    rcases hsi : getField b "systemInstruction" with _ | v
    · simp [sysParts, sysInstructionMap, hsi, getField]
    · rcases v with _ | _ | _ | _ | _ | m
      all_goals simp [sysParts, sysInstructionMap, hsi, getField]
  rw [hcamel]
  rcases sv with _ | _ | _ | _ | _ | sm
  · simp [snakePartsOf]
  · simp [snakePartsOf]
  · simp [snakePartsOf]
  · simp [snakePartsOf]
  · simp [snakePartsOf]
  · rcases hsp : getField sm "parts" with _ | pv
    · simp [snakePartsOf, hsp]
    · rcases pv with _ | _ | _ | _ | sp | _
      · simp [snakePartsOf, hsp]
      · simp [snakePartsOf, hsp]
      · simp [snakePartsOf, hsp]
      · simp [snakePartsOf, hsp]
      · simp [snakePartsOf, hsp]
      · simp [snakePartsOf, hsp]

theorem mergePhase_parts (b : List (String × JVal)) (sv : JVal)
    (h : getField b "system_instruction" = some sv) :
    ∃ m, getField (mergePhase b) "systemInstruction" = some (.obj m) ∧
      getField m "parts" = some (.arr (snakePartsOf sv ++ sysParts b)) := by
  unfold mergePhase
  split
  · next hs => rw [h] at hs; simp at hs
  · next sv' hs =>
    rw [h] at hs
    obtain rfl : sv = sv' := by simpa using hs
    refine ⟨mergeValue b sv, ?_, mergeValue_parts b sv⟩
    rw [getField_removeField_ne "system_instruction" "systemInstruction" (by decide) _]
    exact getField_setField_self b _ _

theorem mergePhase_sysParts (b : List (String × JVal)) (sv : JVal)
    (h : getField b "system_instruction" = some sv) :
    sysParts (mergePhase b) = snakePartsOf sv ++ sysParts b := by
  obtain ⟨m, h1, h2⟩ := mergePhase_parts b sv h
  simp [sysParts, sysInstructionMap, h1, h2]

theorem sysParts_nil_of_invalid (b : List (String × JVal))
    (h : hasValidCamelParts b = false) : sysParts b = [] := by
  unfold hasValidCamelParts at h
  split at h
  · next m heq =>
    split at h
    · next ps hp => cases h
    · next hp =>
      rw [sysParts_of_obj b m heq]
      rcases hpv : getField m "parts" with _ | pv
      · simp
      · rcases pv with _ | _ | _ | _ | ps | _
        · simp
        · simp
        · simp
        · simp
        · exact absurd hpv (by simpa using hp ps)
        · simp
  · next hno =>
    unfold sysParts sysInstructionMap
    rcases hsi : getField b "systemInstruction" with _ | v
    · rfl
    · rcases v with _ | _ | _ | _ | _ | m
      · rfl
      · rfl
      · rfl
      · rfl
      · rfl
      · exact (hno m hsi).elim

/-- C9: after InjectSystemPrompt, the snake_case `system_instruction` key is
absent; `systemInstruction` is a mapping whose parts array is non-empty and
ends with the injected part; a valid snake_case field's parts are prepended
before the camelCase parts; and when the snake_case field is absent and the
camelCase field is missing, null, malformed, or of the wrong type, the parts
array holds exactly the injected part. -/
theorem c9_inject_system_prompt : ∀ (body : List (String × JVal)),
    getField (InjectSystemPrompt body) "system_instruction" = none ∧
    (∃ m, getField (InjectSystemPrompt body) "systemInstruction" = some (.obj m)) ∧
    sysParts (InjectSystemPrompt body) ≠ [] ∧
    (sysParts (InjectSystemPrompt body)).getLast? = some newSystemPromptPart ∧
    (∀ sm sp, getField body "system_instruction" = some (.obj sm) →
      getField sm "parts" = some (.arr sp) →
      sysParts (InjectSystemPrompt body) = sp ++ sysParts body ++ [newSystemPromptPart]) ∧
    (getField body "system_instruction" = none → hasValidCamelParts body = false →
      sysParts (InjectSystemPrompt body) = [newSystemPromptPart]) := by
  intro body
  have hparts : sysParts (InjectSystemPrompt body)
      = sysParts (mergePhase body) ++ [newSystemPromptPart] :=
    casePhase_sysParts (mergePhase body)
  refine ⟨?_, ?_, ?_, ?_, ?_, ?_⟩
  · show getField (casePhase (mergePhase body)) "system_instruction" = none
    rw [casePhase_other_key (mergePhase body) "system_instruction" (by decide)]
    exact mergePhase_snake_gone body
  · obtain ⟨m, h1, _⟩ := casePhase_parts (mergePhase body)
    exact ⟨m, h1⟩
  · rw [hparts]
    simp
  · rw [hparts]
    exact List.getLast?_concat _
  · intro sm sp hsnake hsp
    rw [hparts, mergePhase_sysParts body (.obj sm) hsnake]
    simp [snakePartsOf, hsp, List.append_assoc]
  · intro hsnake hcamel
    rw [hparts, mergePhase_none body hsnake, sysParts_nil_of_invalid body hcamel]
    simp

/-- C9 witness: a body carrying both spellings, with the snake_case parts
prepended before the camelCase parts and the injected part appended last. -/
theorem c9_inject_system_prompt_witness :
    sysParts (InjectSystemPrompt
      [("system_instruction", JVal.obj [("parts", JVal.arr [modelEntry])]),
       ("systemInstruction", JVal.obj [("parts", JVal.arr [userEntry])])])
      = [modelEntry, userEntry, newSystemPromptPart] := by
  have h := (c9_inject_system_prompt
      [("system_instruction", JVal.obj [("parts", JVal.arr [modelEntry])]),
       ("systemInstruction", JVal.obj [("parts", JVal.arr [userEntry])])]).2.2.2.2.1
    [("parts", JVal.arr [modelEntry])] [modelEntry] rfl rfl
  simpa using h

theorem swallowAdjusted_retryCount (cfg : Config) (s : SessionSt) :
    (swallowAdjusted cfg s).retryCount = s.retryCount := by
  unfold swallowAdjusted
  split <;> rfl

theorem swallowAdjusted_accumulatedText (cfg : Config) (s : SessionSt) :
    (swallowAdjusted cfg s).accumulatedText = s.accumulatedText := by
  unfold swallowAdjusted
  split <;> rfl

/-- C2: when an interruption passes the retry gate (retry budget not yet
reached) and the continuation body builds, the retry count is incremented by
exactly one for the attempt — whether the continuation succeeds (a 200 with
a new stream), fails with a retryable non-200 status outside
{400, 401, 403, 404, 429}, or fails with a network error; in the two error
cases the supervisor sleeps the configured retry delay once (recorded as one
sleep) and loops to a fresh attempt over the exhausted reader, without a
second increment. -/
theorem c2_retry_single_increment :
    ∀ (cfg : Config) (origBody : List (String × JVal)) (s : SessionSt)
      (written : List OutEvent) (reason : String) (rb : List (String × JVal)),
    s.retryCount < cfg.maxConsecutiveRetries →
    BuildRetryRequestBody origBody s.accumulatedText = some rb →
    (∀ code body, nonRetryableStatuses code = false → code ≠ 200 →
      ∃ s', gateAndContinue cfg origBody s written reason (some (.httpStatus code body))
          = .next written 1 s' [] ∧ s'.retryCount = s.retryCount + 1) ∧
    (∃ s', gateAndContinue cfg origBody s written reason (some .networkError)
        = .next written 1 s' [] ∧ s'.retryCount = s.retryCount + 1) ∧
    (∀ newLines, ∃ s', gateAndContinue cfg origBody s written reason (some (.ok newLines))
        = .next written 0 s' newLines ∧ s'.retryCount = s.retryCount + 1) := by
  intro cfg origBody s written reason rb hlt hbuild
  have hcnt := swallowAdjusted_retryCount cfg s
  have hacc := swallowAdjusted_accumulatedText cfg s
  have hnot : ¬ (swallowAdjusted cfg s).retryCount ≥ cfg.maxConsecutiveRetries := by
    omega
  refine ⟨?_, ?_, ?_⟩
  · intro code body hret h200
    refine ⟨{ swallowAdjusted cfg s with
        retryCount := (swallowAdjusted cfg s).retryCount + 1 }, ?_, ?_⟩
    · simp only [gateAndContinue, hnot, if_false, hacc, hbuild, hret, Bool.false_eq_true,
        bne_iff_ne, ne_eq, h200, not_false_eq_true, if_true]
    · simp [hcnt]
  · refine ⟨{ swallowAdjusted cfg s with
        retryCount := (swallowAdjusted cfg s).retryCount + 1 }, ?_, ?_⟩
    · simp only [gateAndContinue, hnot, if_false, hacc, hbuild]
    · simp [hcnt]
  · intro newLines
    refine ⟨{ swallowAdjusted cfg s with
        retryCount := (swallowAdjusted cfg s).retryCount + 1 }, ?_, ?_⟩
    · simp only [gateAndContinue, hnot, if_false, hacc, hbuild]
    · simp [hcnt]

/-- C2 witness: a retryable 503 during continuation from the initial state. -/
theorem c2_retry_single_increment_witness :
    ∃ s', gateAndContinue cfg0 body0 initialSession [] "DROP"
        (some (.httpStatus 503 "oops")) = .next [] 1 s' [] ∧
      s'.retryCount = initialSession.retryCount + 1 :=
  ((c2_retry_single_increment cfg0 body0 initialSession [] "DROP"
      [("contents", .arr [userEntry, modelTurn "", continueTurn])]
      (by decide) rfl).1) 503 "oops" (by decide) (by decide)

/-- C6: when a non-thought, non-blocked frame carries finish reason STOP,
the supervisor inspects the trimmed concatenation of the accumulated text
and the frame's text: if it is empty the interruption is
FINISH_EMPTY_RESPONSE, and if it does not end with the literal `[done]` it
is FINISH_INCOMPLETE; in particular an attempt consisting of a single STOP
frame with empty text is classified FINISH_EMPTY_RESPONSE and triggers a
retry (the retry count moves to 1 and a continuation is consumed). -/
theorem c6_stop_classification :
    (∀ (maxOut : Nat) (st : AttemptLoopState) (l : SSELine),
      (ParseLineContent l).isThought = false →
      IsBlockedLine l = false →
      ExtractFinishReason l = "STOP" →
      (goTrimSpace (st.accumulatedText ++ (ParseLineContent l).text) = "" →
        stepReason (stepLine maxOut st l) = some "FINISH_EMPTY_RESPONSE") ∧
      (goTrimSpace (st.accumulatedText ++ (ParseLineContent l).text) ≠ "" →
        goHasSuffix (goTrimSpace (st.accumulatedText ++ (ParseLineContent l).text)) doneToken
          = false →
        stepReason (stepLine maxOut st l) = some "FINISH_INCOMPLETE")) ∧
    ((processAttempt 65535 (attemptInit initialSession) [stopFrame ""]).reason
        = "FINISH_EMPTY_RESPONSE" ∧
      sessionStep cfg0 body0 65535 initialSession [stopFrame ""] (some (.ok []))
        = .next [] 0 ⟨"", 1, false, false, 0⟩ []) := by
  refine ⟨?_, rfl, rfl⟩
  intro maxOut st l hth hbl hfr
  rcases l with p | raw
  case other => simp [ExtractFinishReason] at hfr
  case data =>
  constructor
  · intro hT
    simp only [stepLine, IsDataLine, if_true, hth, Bool.and_false, Bool.false_eq_true,
      if_false, hfr, hbl]
    split
    · rfl
    · next h =>
      exfalso
      apply h
      rw [(preRecord_fields _ _ _).1, (clearSwallow_fields _).1, hT]
      simp
  · intro hT hdone
    simp only [stepLine, IsDataLine, if_true, hth, Bool.and_false, Bool.false_eq_true,
      if_false, hfr, hbl]
    split
    · next h =>
      exfalso
      rw [(preRecord_fields _ _ _).1, (clearSwallow_fields _).1] at h
      simp [hT] at h
    · split
      · rfl
      · next h =>
        exfalso
        apply h
        rw [(preRecord_fields _ _ _).1, (clearSwallow_fields _).1, hdone]
        simp

/-- C6 witness: the STOP-with-empty-text instance and a STOP frame whose
text lacks the sentinel. -/
theorem c6_stop_classification_witness :
    stepReason (stepLine 65535 (attemptInit initialSession) (stopFrame ""))
      = some "FINISH_EMPTY_RESPONSE" ∧
    stepReason (stepLine 65535 (attemptInit initialSession) (stopFrame "The quick brown"))
      = some "FINISH_INCOMPLETE" :=
  ⟨(c6_stop_classification.1 65535 (attemptInit initialSession) (stopFrame "")
      rfl rfl rfl).1 rfl,
   (c6_stop_classification.1 65535 (attemptInit initialSession) (stopFrame "The quick brown")
      rfl rfl rfl).2 (by decide) (by decide)⟩

/-- C4 (amended): while swallow mode is active, a thought frame bearing a
non-empty finish reason is classified FINISH_DURING_THOUGHT and ends the
attempt with no forwarding and no state change; every other thought frame is
dropped with no forwarding and no state change; and swallow mode is cleared
on the first non-thought frame — whether or not it is a data frame — which
then falls through to normal processing. -/
theorem c4_swallow_mode :
    ∀ (maxOut : Nat) (st : AttemptLoopState) (l : SSELine),
    st.swallowModeActive = true →
    ((ParseLineContent l).isThought = true → ExtractFinishReason l ≠ "" →
      stepLine maxOut st l = .interrupted st "FINISH_DURING_THOUGHT") ∧
    ((ParseLineContent l).isThought = true → ExtractFinishReason l = "" →
      stepLine maxOut st l = .proceed st) ∧
    ((ParseLineContent l).isThought = false →
      stepLine maxOut st l = stepLine maxOut { st with swallowModeActive := false } l) := by
  intro maxOut st l hsw
  refine ⟨?_, ?_, ?_⟩
  · intro hth hfr
    rcases l with p | raw
    · simp only [stepLine, IsDataLine, if_true, hsw, hth, Bool.and_self, Bool.true_and,
        if_true]
      simp [bne_iff_ne, hfr]
    · simp [ParseLineContent] at hth
  · intro hth hfr
    rcases l with p | raw
    · simp only [stepLine, IsDataLine, if_true, hsw, hth, Bool.and_self, Bool.true_and,
        if_true]
      simp [hfr]
    · simp [ParseLineContent] at hth
  · intro hth
    have hcl : clearSwallow st = clearSwallow { st with swallowModeActive := false } := by
      simp [clearSwallow, hsw]
    rcases l with p | raw
    · simp only [stepLine, IsDataLine, if_true, hth, hsw, Bool.and_false,
        Bool.false_eq_true, if_false]
      rw [hcl]
    · simp only [stepLine, IsDataLine, Bool.false_eq_true, if_false, hsw, Bool.and_false,
        Bool.false_eq_true]
      rw [hcl]

/-- C4 witness: a thought frame carrying finish reason STOP interrupts the
attempt with FINISH_DURING_THOUGHT, and a plain thought frame is dropped
without any state change. -/
theorem c4_swallow_mode_witness :
    stepLine 65535 swallowState (thoughtStopFrame "hm")
      = .interrupted swallowState "FINISH_DURING_THOUGHT" ∧
    stepLine 65535 swallowState (thoughtFrame "hm") = .proceed swallowState :=
  ⟨(c4_swallow_mode 65535 swallowState (thoughtStopFrame "hm") rfl).1 rfl (by decide),
   (c4_swallow_mode 65535 swallowState (thoughtFrame "hm") rfl).2.1 rfl rfl⟩

/-- The streak test of the source (non-empty last formal text ending with
sentence punctuation) coincides with the claim's condition restated over the
text fragment: trimmed text non-empty and (text ends with a newline or the
trailing non-whitespace character is in the punctuation set). -/
theorem endsPunct_cond (t : String) :
    (t != "" && endsWithSentencePunctuation t) = punctCond t := by
  by_cases h : (goTrimSpace t == "") = true
  · have ht : endsWithSentencePunctuation t = false := by
      unfold endsWithSentencePunctuation
      simp [h]
    simp [punctCond, h, ht]
  · have htne : (t != "") = true := by
      rcases eq_or_ne t "" with rfl | hne
      · exact absurd rfl h
      · simpa using hne
    by_cases hns : goHasSuffix t "\n"
    · simp [endsWithSentencePunctuation, punctCond, h, htne, hns]
    · simp only [endsWithSentencePunctuation, punctCond, h, htne, hns]
      rcases (goTrimSpace t).data.getLast? with _ | c <;> simp

/-- C8 (amended): on a non-clean resumed attempt with the heuristic enabled,
the resume punctuation streak becomes streak+1 exactly when the last formal
TEXT fragment is non-empty after trimming and either itself ends with a
newline character or its trailing non-whitespace character is in the
punctuation set (the code tests the text fragment, not the raw line), and 0
otherwise; at streak ≥ 3 the attempt is declared clean, and a recorded
unflushed last formal frame is flushed exactly once — written in forward
form (done-marker removal applied iff its finish reason is terminal) — with
its text appended to the accumulated text; a flushed or unrecorded frame
leaves the state unchanged. -/
theorem c8_punct_epilogue :
    ∀ (cfg : Config) (retryCount streak : Nat) (st : AttemptLoopState),
    cfg.enablePunctuationHeuristic = true → 0 < retryCount →
    ((attemptEpilogue cfg retryCount streak st false).streak
        = (if punctCond st.lastFormalText then streak + 1 else 0)) ∧
    (3 ≤ (attemptEpilogue cfg retryCount streak st false).streak →
      (attemptEpilogue cfg retryCount streak st false).clean = true) ∧
    ((attemptEpilogue cfg retryCount streak st false).streak < 3 →
      (attemptEpilogue cfg retryCount streak st false).clean = false ∧
      (attemptEpilogue cfg retryCount streak st false).state = st) ∧
    (3 ≤ (attemptEpilogue cfg retryCount streak st false).streak →
      st.lastFormalFlushed = false → ∀ l, st.lastFormalLine = some l →
      (attemptEpilogue cfg retryCount streak st false).state.written
          = st.written ++ [.frame (forwardForm l)] ∧
      (attemptEpilogue cfg retryCount streak st false).state.accumulatedText
          = st.accumulatedText ++ st.lastFormalText) ∧
    (3 ≤ (attemptEpilogue cfg retryCount streak st false).streak →
      st.lastFormalFlushed = true →
      (attemptEpilogue cfg retryCount streak st false).state = st) := by
  intro cfg retryCount streak st hen hrc
  have hkey : attemptEpilogue cfg retryCount streak st false
      = (if (if punctCond st.lastFormalText then streak + 1 else 0) ≥ 3 then
          ⟨(if !st.lastFormalFlushed then
              match st.lastFormalLine with
              | some l =>
                { st with
                    written := st.written ++ [.frame (forwardForm l)],
                    accumulatedText := st.accumulatedText ++ st.lastFormalText,
                    isOutputtingFormalText := true }
              | none => st
            else st), true, (if punctCond st.lastFormalText then streak + 1 else 0)⟩
        else ⟨st, false, (if punctCond st.lastFormalText then streak + 1 else 0)⟩) := by
    unfold attemptEpilogue
    rw [← endsPunct_cond]
    simp [hen, hrc, forwardForm]
  rw [hkey]
  set strk := (if punctCond st.lastFormalText = true then streak + 1 else 0) with hstrk
  refine ⟨?_, ?_, ?_, ?_, ?_⟩
  · split <;> rfl
  · split
    · intro _
      rfl
    · next hlt =>
      intro h
      exact absurd h hlt
  · split
    · next hge =>
      intro h
      change strk < 3 at h
      exact absurd hge (by omega)
    · intro _
      exact ⟨rfl, rfl⟩
  · split
    · next hge =>
      intro _ hfl l hl
      constructor
      · simp [hfl, hl]
      · simp [hfl, hl]
    · next hlt =>
      intro h
      exact absurd h hlt
  · split
    · next hge =>
      intro _ hfl
      simp [hfl]
    · next hlt =>
      intro h
      exact absurd h hlt

/-- C8 witness: three punctuation-terminated resumed attempts with an
unflushed trailing frame flush it once and append its text. -/
theorem c8_punct_epilogue_witness :
    (attemptEpilogue cfg0 1 2
        { attemptInit initialSession with
            lastFormalText := "Done.", lastFormalLine := some (textFrame "Done.") }
        false).state.written
      = [] ++ [.frame (forwardForm (textFrame "Done."))] ∧
    (attemptEpilogue cfg0 1 2
        { attemptInit initialSession with
            lastFormalText := "Done.", lastFormalLine := some (textFrame "Done.") }
        false).state.accumulatedText = "" ++ "Done." :=
  (c8_punct_epilogue cfg0 1 2
      { attemptInit initialSession with
          lastFormalText := "Done.", lastFormalLine := some (textFrame "Done.") }
      rfl (by decide)).2.2.2.1 (by decide) rfl (textFrame "Done.") rfl

theorem pruneStale_eq_dropWhile (c : Int) :
    ∀ ts : List Int, pruneStale c ts = ts.dropWhile (fun t => decide (t < c))
  | [] => rfl
  | t :: ts => by
    by_cases h : t < c
    · have h1 : pruneStale c (t :: ts) = pruneStale c ts := by
        simp [pruneStale, List.findIdx_cons, h]
      rw [h1, pruneStale_eq_dropWhile c ts]
      simp [List.dropWhile_cons, h]
    · simp [pruneStale, List.findIdx_cons, h, List.dropWhile_cons]

theorem mem_dropWhile_ge (c : Int) :
    ∀ ts : List Int, List.Pairwise (· ≤ ·) ts →
      ∀ x ∈ ts.dropWhile (fun t => decide (t < c)), c ≤ x
  | [], _, x, hx => absurd hx (by simp)
  | t :: ts, hp, x, hx => by
    rcases List.pairwise_cons.mp hp with ⟨hle, hp'⟩
    by_cases h : t < c
    · rw [List.dropWhile_cons] at hx
      simp only [h, decide_eq_true_eq, if_pos] at hx
      exact mem_dropWhile_ge c ts hp' x hx
    · rw [List.dropWhile_cons] at hx
      rw [if_neg (by simpa using h)] at hx
      rcases List.mem_cons.mp hx with rfl | hx'
      · omega
      · have := hle x hx'
        omega

theorem dropWhile_eq_filter_of_sorted (c : Int) :
    ∀ ts : List Int, List.Pairwise (· ≤ ·) ts →
      ts.dropWhile (fun t => decide (t < c)) = ts.filter (fun t => !decide (t < c))
  | [], _ => rfl
  | t :: ts, hp => by
    rcases List.pairwise_cons.mp hp with ⟨hle, hp'⟩
    by_cases h : t < c
    · rw [List.dropWhile_cons, List.filter_cons, if_pos (by simpa using h),
        if_neg (by simpa using h)]
      exact dropWhile_eq_filter_of_sorted c ts hp'
    · rw [List.dropWhile_cons, List.filter_cons, if_neg (by simpa using h),
        if_pos (by simpa using h)]
      have hfix : ts.filter (fun t => !decide (t < c)) = ts := by
        apply List.filter_eq_self.mpr
        intro x hx
        have := hle x hx
        simp
        omega
      rw [hfix]

theorem getTimestamps_set_self (rl : RateLimiter) (key : String) (v : List Int) :
    getTimestamps { rl with clients := setField rl.clients key v } key = v := by
  unfold getTimestamps
  rw [getField_setField_self]

theorem getTimestamps_set_ne (rl : RateLimiter) (key k : String) (v : List Int)
    (h : k ≠ key) :
    getTimestamps { rl with clients := setField rl.clients key v } k
      = getTimestamps rl k := by
  unfold getTimestamps
  rw [getField_setField_ne key k h]

/-- C10: considered sequentially, each admission of RateLimiter.Wait appends
exactly one timestamp for its key (leaving other keys untouched), admits
only while fewer than `limit` pruned timestamps remain, prunes exactly the
timestamps older than the window (for the monotone timestamp lists the
limiter actually builds) before the check so the pruned entries all lie
within the window, and keeps every retained list at no more than `limit`
entries; a completed Wait call is exactly one such admission at one of its
wake-up instants. -/
theorem c10_rate_limiter_wait :
    (∀ (rl : RateLimiter) (key : String) (now : Int) (rl' : RateLimiter),
      waitStep rl key now = .admitted rl' →
      (getTimestamps rl' key
          = pruneStale (now - rl.window) (getTimestamps rl key) ++ [now]) ∧
      (∀ k, k ≠ key → getTimestamps rl' k = getTimestamps rl k) ∧
      (pruneStale (now - rl.window) (getTimestamps rl key)).length < rl.limit ∧
      (getTimestamps rl' key).length ≤ rl.limit ∧
      ((∀ k, (getTimestamps rl k).length ≤ rl.limit) →
        ∀ k, (getTimestamps rl' k).length ≤ rl.limit) ∧
      (List.Pairwise (· ≤ ·) (getTimestamps rl key) →
        (∀ t ∈ pruneStale (now - rl.window) (getTimestamps rl key),
          now - rl.window ≤ t) ∧
        pruneStale (now - rl.window) (getTimestamps rl key)
          = (getTimestamps rl key).filter (fun t => !decide (t < now - rl.window)))) ∧
    (∀ (rl : RateLimiter) (key : String) (times : List Int) (rl' : RateLimiter),
      Wait rl key times = some rl' →
      ∃ now, now ∈ times ∧ waitStep rl key now = .admitted rl') := by
  constructor
  · intro rl key now rl' h
    simp only [waitStep] at h
    split at h
    · next hlt =>
      cases h
      have hself := getTimestamps_set_self rl key
        (pruneStale (now - rl.window) (getTimestamps rl key) ++ [now])
      refine ⟨hself, ?_, hlt, ?_, ?_, ?_⟩
      · intro k hk
        exact getTimestamps_set_ne rl key k _ hk
      · rw [hself]
        simp
        omega
      · intro hall k
        by_cases hk : k = key
        · subst hk
          rw [hself]
          simp
          omega
        · rw [getTimestamps_set_ne rl key k _ hk]
          exact hall k
      · intro hsorted
        constructor
        · intro t ht
          rw [pruneStale_eq_dropWhile] at ht
          exact mem_dropWhile_ge _ _ hsorted t ht
        · rw [pruneStale_eq_dropWhile]
          exact dropWhile_eq_filter_of_sorted _ _ hsorted
    · split at h <;> cases h
  · intro rl key times
    induction times with
    | nil => intro rl' h; cases h
    | cons now later ih =>
      intro rl' h
      unfold Wait at h
      rcases hstep : waitStep rl key now with rla | u
      · rw [hstep] at h
        refine ⟨now, List.mem_cons_self now later, ?_⟩
        cases h
        exact hstep
      · rw [hstep] at h
        obtain ⟨n, hn, hs⟩ := ih rl' h
        exact ⟨n, List.mem_cons_of_mem now hn, hs⟩

/-- C10 witness: a key with one stale and one fresh timestamp admits at
instant 100 with window 60 and limit 2, discarding the stale entry. -/
theorem c10_rate_limiter_wait_witness :
    getTimestamps
      (RateLimiter.mk [("k", [99, 100])] 2 60) "k" = [99, 100] ∧
    waitStep (RateLimiter.mk [("k", [30, 99])] 2 60) "k" 100
      = .admitted (RateLimiter.mk [("k", [99, 100])] 2 60) ∧
    getTimestamps (RateLimiter.mk [("k", [99, 100])] 2 60) "k"
      = pruneStale (100 - 60) (getTimestamps (RateLimiter.mk [("k", [30, 99])] 2 60) "k")
        ++ [100] :=
  ⟨rfl, rfl,
   (c10_rate_limiter_wait.1 (RateLimiter.mk [("k", [30, 99])] 2 60) "k" 100
      (RateLimiter.mk [("k", [99, 100])] 2 60) rfl).1⟩

theorem stepLine_prov (maxOut : Nat) (st : AttemptLoopState) (l : SSELine) :
    ((stepState (stepLine maxOut st l)).written = st.written ∨
      (stepState (stepLine maxOut st l)).written
        = st.written ++ [.frame (forwardForm l)]) ∧
    ((stepState (stepLine maxOut st l)).lastFormalLine = st.lastFormalLine ∨
      (stepState (stepLine maxOut st l)).lastFormalLine = some l) := by
  have h2w : ∀ c, (preRecord (clearSwallow st) l c).written = st.written := fun c => by
    rw [(preRecord_fields _ _ _).2.1, (clearSwallow_fields _).2.1]
  have h2l : ∀ c, (preRecord (clearSwallow st) l c).lastFormalLine = st.lastFormalLine ∨
      (preRecord (clearSwallow st) l c).lastFormalLine = some l := fun c => by
    rcases (preRecord_fields (clearSwallow st) l c).2.2 with h | h
    · exact Or.inl (h.trans (clearSwallow_fields st).2.2)
    · exact Or.inr h
  simp only [stepLine]
  repeat' split
  all_goals first
    | exact ⟨Or.inl rfl, Or.inl rfl⟩
    | exact ⟨Or.inl (h2w _), h2l _⟩
    | (constructor
       · rw [(forwardLine_state _ _ _ _ _).1, h2w _]
         exact Or.inr rfl
       · rcases h2l _ with h | h
         · exact Or.inl ((forwardLine_state _ _ _ _ _).2.trans h)
         · exact Or.inr ((forwardLine_state _ _ _ _ _).2.trans h))

theorem runLines_prov (maxOut : Nat) : ∀ (ls : List SSELine) (st : AttemptLoopState),
    (∀ f, OutEvent.frame f ∈ (runLines maxOut st ls).state.written →
      OutEvent.frame f ∈ st.written ∨ ∃ l, l ∈ ls ∧ f = forwardForm l) ∧
    ((runLines maxOut st ls).state.lastFormalLine = st.lastFormalLine ∨
      ∃ l, l ∈ ls ∧ (runLines maxOut st ls).state.lastFormalLine = some l)
  | [], st => by
    constructor
    · intro f hf
      exact Or.inl hf
    · exact Or.inl rfl
  | l :: ls, st => by
    have hw := (stepLine_prov maxOut st l).1
    have hl := (stepLine_prov maxOut st l).2
    unfold runLines
    rcases hs : stepLine maxOut st l with st' | ⟨st', r⟩ | st'
    all_goals rw [hs] at hw hl
    all_goals simp only [stepState] at hw hl
    · have IH := runLines_prov maxOut ls st'
      constructor
      · intro f hf
        rcases IH.1 f hf with hin | ⟨l', hl', hf'⟩
        · rcases hw with h | h
          · rw [h] at hin
            exact Or.inl hin
          · rw [h] at hin
            rcases List.mem_append.mp hin with h1 | h2
            · exact Or.inl h1
            · simp only [List.mem_singleton] at h2
              have : f = forwardForm l := by
                cases h2
                rfl
              exact Or.inr ⟨l, List.mem_cons_self l ls, this⟩
        · exact Or.inr ⟨l', List.mem_cons_of_mem l hl', hf'⟩
      · rcases IH.2 with h | ⟨l', hl', h⟩
        · rcases hl with h2 | h2
          · exact Or.inl (h.trans h2)
          · exact Or.inr ⟨l, List.mem_cons_self l ls, h.trans h2⟩
        · exact Or.inr ⟨l', List.mem_cons_of_mem l hl', h⟩
    · constructor
      · intro f hf
        simp only [] at hf
        rcases hw with h | h
        · rw [h] at hf
          exact Or.inl hf
        · rw [h] at hf
          rcases List.mem_append.mp hf with h1 | h2
          · exact Or.inl h1
          · simp only [List.mem_singleton] at h2
            have : f = forwardForm l := by
              cases h2
              rfl
            exact Or.inr ⟨l, List.mem_cons_self l ls, this⟩
      · rcases hl with h2 | h2
        · exact Or.inl h2
        · exact Or.inr ⟨l, List.mem_cons_self l ls, h2⟩
    · constructor
      · intro f hf
        simp only [] at hf
        rcases hw with h | h
        · rw [h] at hf
          exact Or.inl hf
        · rw [h] at hf
          rcases List.mem_append.mp hf with h1 | h2
          · exact Or.inl h1
          · simp only [List.mem_singleton] at h2
            have : f = forwardForm l := by
              cases h2
              rfl
            exact Or.inr ⟨l, List.mem_cons_self l ls, this⟩
      · rcases hl with h2 | h2
        · exact Or.inl h2
        · exact Or.inr ⟨l, List.mem_cons_self l ls, h2⟩

theorem processAttempt_state (maxOut : Nat) (st : AttemptLoopState) (ls : List SSELine) :
    (processAttempt maxOut st ls).state = (runLines maxOut st ls).state := by
  simp only [processAttempt]
  split <;> rfl

theorem attemptEpilogue_frames (cfg : Config) (retryCount streak : Nat)
    (st : AttemptLoopState) (clean : Bool) :
    ∀ f, OutEvent.frame f ∈ (attemptEpilogue cfg retryCount streak st clean).state.written →
      OutEvent.frame f ∈ st.written ∨
        ∃ l, st.lastFormalLine = some l ∧ f = forwardForm l := by
  intro f hf
  simp only [attemptEpilogue] at hf
  repeat' split at hf
  all_goals simp only [List.mem_append, List.mem_singleton, OutEvent.frame.injEq] at hf
  all_goals
    first
    | exact Or.inl hf
    | (rename_i l heq
       rcases hf with h | h
       · exact Or.inl h
       · exact Or.inr ⟨l, heq, h⟩)

theorem gateAndContinue_frames (cfg : Config) (origBody : List (String × JVal))
    (s : SessionSt) (w : List OutEvent) (reason : String) (o : Option ContinuationOutcome) :
    ∀ f, OutEvent.frame f ∈ stepWritten (gateAndContinue cfg origBody s w reason o) →
      OutEvent.frame f ∈ w := by
  intro f hf
  simp only [gateAndContinue] at hf
  repeat' split at hf
  all_goals simp only [stepWritten] at hf
  all_goals
    first
    | exact hf
    | (rcases List.mem_append.mp hf with h1 | h2
       · exact h1
       · simp at h2)

/-- C3 (amended): every frame the supervisor writes to the client during one
attempt — normal forwarding and the punctuation tail flush alike — is
`remove_done_marker(l, at_end)` of an upstream line `l` of that attempt,
where `at_end` holds iff the line's finish reason is STOP or MAX_TOKENS; a
line without a terminal finish reason is forwarded unchanged, so a stray
`[done]` in such a frame does reach the client. -/
theorem c3_forward_form :
    (∀ (cfg : Config) (origBody : List (String × JVal)) (maxOut : Nat) (s : SessionSt)
      (lines : List SSELine) (o : Option ContinuationOutcome) (f : SSELine),
      OutEvent.frame f ∈ stepWritten (sessionStep cfg origBody maxOut s lines o) →
      ∃ l, l ∈ lines ∧ f = forwardForm l) ∧
    (∀ l, ExtractFinishReason l ≠ "STOP" → ExtractFinishReason l ≠ "MAX_TOKENS" →
      forwardForm l = l) := by
  constructor
  · intro cfg origBody maxOut s lines o f hf
    have hmain : OutEvent.frame f
        ∈ (attemptEpilogue cfg s.retryCount s.streak
            (processAttempt maxOut (attemptInit s) lines).state
            (processAttempt maxOut (attemptInit s) lines).clean).state.written := by
      simp only [sessionStep] at hf
      split at hf
      · simpa [stepWritten] using hf
      · exact gateAndContinue_frames _ _ _ _ _ _ f hf
    rcases attemptEpilogue_frames _ _ _ _ _ f hmain with hin | ⟨l, hline, hform⟩
    · rw [processAttempt_state] at hin
      rcases (runLines_prov maxOut lines (attemptInit s)).1 f hin with h0 | h1
      · simp [attemptInit] at h0
      · exact h1
    · rw [processAttempt_state] at hline
      rcases (runLines_prov maxOut lines (attemptInit s)).2 with h0 | ⟨l', hl', h1⟩
      · rw [h0] at hline
        simp [attemptInit] at hline
      · rw [h1] at hline
        have hll : l' = l := by simpa using hline
        exact ⟨l, hll ▸ hl', hform⟩
  · intro l h1 h2
    unfold forwardForm
    have : (ExtractFinishReason l == "STOP" || ExtractFinishReason l == "MAX_TOKENS")
        = false := by
      simp [h1, h2]
    rw [this]
    rfl

/-- C3 (amended) witness: the supervisor's output for a single mid-stream
frame is that frame in forward form (here: unchanged, carrying its stray
marker). -/
theorem c3_forward_form_witness :
    ∃ l, l ∈ [midDoneLine] ∧ midDoneLine = forwardForm l :=
  c3_forward_form.1 cfg0 body0 65535 initialSession [midDoneLine] none midDoneLine
    (by
      have : stepWritten (sessionStep cfg0 body0 65535 initialSession [midDoneLine] none)
          = [OutEvent.frame midDoneLine] := rfl
      rw [this]
      exact List.mem_singleton.mpr rfl)

theorem epilogue_no_formal (cfg : Config) (r : Nat) (st : AttemptLoopState)
    (h : st.lastFormalText = "") :
    attemptEpilogue cfg r 0 st false = ⟨st, false, 0⟩ := by
  unfold attemptEpilogue
  split
  · simp [h]
  · rfl

theorem sessionStep_drop_ok (cfg : Config) (r : Nat) (ls : List SSELine)
    (h : r < cfg.maxConsecutiveRetries) :
    sessionStep cfg body0 65535 ⟨"", r, false, false, 0⟩ [] (some (.ok ls))
      = .next [] 0 ⟨"", r + 1, false, false, 0⟩ ls := by
  have h1 : processAttempt 65535 (attemptInit ⟨"", r, false, false, 0⟩) []
      = ⟨attemptInit ⟨"", r, false, false, 0⟩, "DROP", false⟩ := rfl
  have hb : BuildRetryRequestBody body0 ""
      = some [("contents", .arr [userEntry, modelTurn "", continueTurn])] := rfl
  have hnot : ¬ (r ≥ cfg.maxConsecutiveRetries) := by omega
  simp only [sessionStep, h1]
  rw [epilogue_no_formal cfg r _ rfl]
  simp only [gateAndContinue, swallowAdjusted, attemptInit, Bool.and_false,
    Bool.false_eq_true, if_false, hnot, hb]

theorem sessionStep_exhausted (cfg : Config) (r : Nat) (o : Option ContinuationOutcome)
    (h : cfg.maxConsecutiveRetries ≤ r) :
    sessionStep cfg body0 65535 ⟨"", r, false, false, 0⟩ [] o
      = .failure [.errorEvent (deadlinePayload cfg.maxConsecutiveRetries "DROP" 0)]
          ⟨"", r, false, false, 0⟩ 504 "DEADLINE_EXCEEDED"
          (deadlineMessage cfg.maxConsecutiveRetries "DROP") := by
  have h1 : processAttempt 65535 (attemptInit ⟨"", r, false, false, 0⟩) []
      = ⟨attemptInit ⟨"", r, false, false, 0⟩, "DROP", false⟩ := rfl
  have hge : (r ≥ cfg.maxConsecutiveRetries) := h
  simp only [sessionStep, h1]
  rw [epilogue_no_formal cfg r _ rfl]
  simp only [gateAndContinue, swallowAdjusted, attemptInit, Bool.and_false,
    Bool.false_eq_true, if_false, hge, if_true]
  rfl

theorem runSession_drop_steps (cfg : Config) :
    ∀ (k r : Nat) (rest : List ContinuationOutcome) (w : List OutEvent),
    r + k ≤ cfg.maxConsecutiveRetries →
    runSession cfg body0 65535 ⟨"", r, false, false, 0⟩ []
        (List.replicate k (.ok []) ++ rest) w
      = runSession cfg body0 65535 ⟨"", r + k, false, false, 0⟩ [] rest w
  | 0, r, rest, w, h => by simp
  | k + 1, r, rest, w, h => by
    have hlt : r < cfg.maxConsecutiveRetries := by omega
    rw [List.replicate_succ, List.cons_append]
    show runSession cfg body0 65535 ⟨"", r, false, false, 0⟩ []
        (ContinuationOutcome.ok [] :: (List.replicate k (.ok []) ++ rest)) w = _
    unfold runSession
    rw [sessionStep_drop_ok cfg r [] hlt]
    have hk : r + (k + 1) = (r + 1) + k := by omega
    show runSession cfg body0 65535 ⟨"", r + 1, false, false, 0⟩ []
        (List.replicate k (.ok []) ++ rest) (w ++ []) = _
    rw [List.append_nil, runSession_drop_steps cfg k (r + 1) rest w (by omega), hk]
    cases rest <;> rfl

theorem runSession_good (cfg : Config) (m : Nat) (w : List OutEvent) :
    runSession cfg body0 65535 ⟨"", m, false, false, 0⟩ [stopFrame "ok[done]"] [] w
      = .success (w ++ [.frame (stopFrame "ok")]) ⟨"ok[done]", m, true, false, 0⟩ := by
  have h1 : processAttempt 65535 (attemptInit ⟨"", m, false, false, 0⟩) [stopFrame "ok[done]"]
      = ⟨⟨"ok[done]", true, false, [.frame (stopFrame "ok")], "ok[done]",
          some (stopFrame "ok[done]"), true⟩, "", true⟩ := rfl
  have h2 : attemptEpilogue cfg m 0
      ⟨"ok[done]", true, false, [.frame (stopFrame "ok")], "ok[done]",
        some (stopFrame "ok[done]"), true⟩ true
      = ⟨⟨"ok[done]", true, false, [.frame (stopFrame "ok")], "ok[done]",
          some (stopFrame "ok[done]"), true⟩, true, 0⟩ := by
    unfold attemptEpilogue
    simp
  unfold runSession
  simp only [sessionStep, h1, h2]
  rfl

theorem stepSession_bound (cfg : Config) (origBody : List (String × JVal)) (maxOut : Nat)
    (s : SessionSt) (lines : List SSELine) (o : Option ContinuationOutcome)
    (h : s.retryCount ≤ cfg.maxConsecutiveRetries) :
    (stepSession (sessionStep cfg origBody maxOut s lines o)).retryCount
      ≤ cfg.maxConsecutiveRetries := by
  have hgate : ∀ (s' : SessionSt) (w : List OutEvent) (reason : String),
      s'.retryCount ≤ cfg.maxConsecutiveRetries →
      (stepSession (gateAndContinue cfg origBody s' w reason o)).retryCount
        ≤ cfg.maxConsecutiveRetries := by
    intro s' w reason h'
    have hcnt := swallowAdjusted_retryCount cfg s'
    simp only [gateAndContinue]
    split
    · simpa [stepSession, hcnt] using h'
    · next hge =>
      have hlt : (swallowAdjusted cfg s').retryCount < cfg.maxConsecutiveRetries := by
        omega
      repeat' split
      all_goals simp [stepSession, hcnt]
      all_goals omega
  simp only [sessionStep]
  split
  · simpa [stepSession] using h
  · exact hgate _ _ _ (by simpa using h)

/-- C5: the retry count never exceeds the configured maximum in any
reachable step of the session; a session of exactly `max_retries` DROP
interruptions followed by a clean attempt succeeds with the retry count at
the maximum; one further interruption instead writes a single well-formed
SSE error event — code 504, status DEADLINE_EXCEEDED, a message that embeds
the last interruption reason — and terminates the session with failure. -/
theorem c5_retry_bound :
    ∀ (cfg : Config),
    (∀ (origBody : List (String × JVal)) (maxOut : Nat) (s : SessionSt)
        (lines : List SSELine) (o : Option ContinuationOutcome),
      s.retryCount ≤ cfg.maxConsecutiveRetries →
      (stepSession (sessionStep cfg origBody maxOut s lines o)).retryCount
        ≤ cfg.maxConsecutiveRetries) ∧
    (1 ≤ cfg.maxConsecutiveRetries →
      runSession cfg body0 65535 initialSession []
          (List.replicate (cfg.maxConsecutiveRetries - 1) (.ok [])
            ++ [.ok [stopFrame "ok[done]"]]) []
        = .success [.frame (stopFrame "ok")]
            ⟨"ok[done]", cfg.maxConsecutiveRetries, true, false, 0⟩) ∧
    (runSession cfg body0 65535 initialSession []
        (List.replicate cfg.maxConsecutiveRetries (.ok [])) []
      = .failure [.errorEvent (deadlinePayload cfg.maxConsecutiveRetries "DROP" 0)]
          ⟨"", cfg.maxConsecutiveRetries, false, false, 0⟩ 504 "DEADLINE_EXCEEDED"
          (deadlineMessage cfg.maxConsecutiveRetries "DROP")) ∧
    (∀ maxR reason, ∃ pre post, deadlineMessage maxR reason = pre ++ (reason ++ post)) := by
  intro cfg
  refine ⟨fun origBody maxOut s lines o h =>
      stepSession_bound cfg origBody maxOut s lines o h, ?_, ?_, ?_⟩
  · intro h1
    have hinit : initialSession = (⟨"", 0, false, false, 0⟩ : SessionSt) := rfl
    rw [hinit,
      runSession_drop_steps cfg (cfg.maxConsecutiveRetries - 1) 0 _ [] (by omega)]
    have hm : 0 + (cfg.maxConsecutiveRetries - 1) = cfg.maxConsecutiveRetries - 1 := by
      omega
    rw [hm]
    unfold runSession
    rw [sessionStep_drop_ok cfg (cfg.maxConsecutiveRetries - 1) [stopFrame "ok[done]"]
      (by omega)]
    show runSession cfg body0 65535
        ⟨"", cfg.maxConsecutiveRetries - 1 + 1, false, false, 0⟩
        [stopFrame "ok[done]"] [] ([] ++ []) = _
    have hm2 : cfg.maxConsecutiveRetries - 1 + 1 = cfg.maxConsecutiveRetries := by omega
    rw [hm2, runSession_good cfg cfg.maxConsecutiveRetries]
    simp
  · have hinit : initialSession = (⟨"", 0, false, false, 0⟩ : SessionSt) := rfl
    have hrep : List.replicate cfg.maxConsecutiveRetries (ContinuationOutcome.ok [])
        = List.replicate cfg.maxConsecutiveRetries (ContinuationOutcome.ok []) ++ [] := by
      simp
    rw [hinit, hrep,
      runSession_drop_steps cfg cfg.maxConsecutiveRetries 0 [] [] (by omega)]
    unfold runSession
    rw [sessionStep_exhausted cfg (0 + cfg.maxConsecutiveRetries) none (by omega)]
    have hz : 0 + cfg.maxConsecutiveRetries = cfg.maxConsecutiveRetries := by omega
    rw [hz]
    rfl
  · intro maxR reason
    refine ⟨"Retry limit (" ++ toString maxR
        ++ ") exceeded after stream interruption. Last reason: ", ".", ?_⟩
    unfold deadlineMessage
    simp [String.append_assoc]

/-- C5 witness: with a budget of two retries, two DROPs then a clean attempt
succeed, and three DROPs fail with the 504 DEADLINE_EXCEEDED event. -/
theorem c5_retry_bound_witness :
    runSession cfg2 body0 65535 initialSession []
        (List.replicate 1 (.ok []) ++ [.ok [stopFrame "ok[done]"]]) []
      = .success [.frame (stopFrame "ok")] ⟨"ok[done]", 2, true, false, 0⟩ ∧
    runSession cfg2 body0 65535 initialSession [] (List.replicate 2 (.ok [])) []
      = .failure [.errorEvent (deadlinePayload 2 "DROP" 0)]
          ⟨"", 2, false, false, 0⟩ 504 "DEADLINE_EXCEEDED" (deadlineMessage 2 "DROP") :=
  ⟨(c5_retry_bound cfg2).2.1 (by decide), (c5_retry_bound cfg2).2.2.1⟩

end GeminiAntiblock
